import Mathlib

/-!
Verification development for the Shrdlite course project's Interpreter and
Planner modules.  The TypeScript sources are embedded shallowly: pure
functions become Lean functions, JavaScript exceptions (thrown `Error`s and
`TypeError`s from `undefined` property accesses) become `Option`/`Except`
failure values, and JavaScript numbers become `ℤ`/`ℕ` (integer-valued
throughout these modules) with `JsNum` adding the `Infinity` sentinel used
by the planner's heuristic.
-/

namespace Shrdlite

/-- An object in the world: its form, size and color (mirrors
`ObjectDefinition` from `World.ts`, whose fields are read by the
interpreter's physics checks). -/
structure ObjectDefinition where
  form : String
  size : String
  color : String
deriving DecidableEq, Repr

/-- The world's `objects` map, sending identifiers to definitions.  A key
that is absent models a JavaScript `undefined` lookup. -/
abbrev ObjMap := String → Option ObjectDefinition

/-- A column of the world: identifiers from bottom to top. -/
abbrev Stack := List String

/-- JavaScript property access `objects[k]` where the key may be `null`:
a `null` key is coerced to the string `"null"`. -/
def jsKey : Option String → String
  | some s => s
  | none => "null"

/-- `stks[i]` for a JavaScript integer index: `none` models `undefined`
(negative or out-of-range index). -/
def stackAt (stks : List Stack) (i : ℤ) : Option Stack :=
  if 0 ≤ i then stks.get? i.toNat else none

/-- `Interpreter.getColumnIndex`: the index of the first column that
contains the identifier, or `none` (JavaScript `null`) when absent.  The
identifier is an `Option String` because the planner feeds possibly-`null`
literal arguments through it; `null` matches no stack entry. -/
def getColumnIndex (objId : Option String) (stks : List Stack) : Option ℕ :=
  stks.findIdx? (fun col => col.any (fun x => some x == objId))

/-- `Interpreter.getStackIndex`: the position of the identifier within
column `i`.  In the source an out-of-range `i` would throw; every caller
passes an `i` obtained from `getColumnIndex`, for which the column exists
and contains the identifier (see `getStackIndex_of_getColumnIndex`), so the
out-of-range and not-found cases are collapsed into `none`. -/
def getStackIndex (objId : Option String) (i : ℕ) (stks : List Stack) : Option ℕ :=
  (stks.getD i []).findIdx? (fun x => some x == objId)

/-- `Interpreter.isLeftOf`: some target occurs in a column strictly to the
right of column `i`.  The scan is bounded by `stks.length` on both sides,
so it never faults. -/
def isLeftOf (objIds : List String) (i : ℤ) (stks : List Stack) : Bool :=
  decide (0 ≤ i + 1) && objIds.any (fun id =>
    (List.range stks.length).any (fun n =>
      decide (i + 1 ≤ (n : ℤ)) && (stks.getD n []).contains id))

/-- `Interpreter.isRightOf`: some target occurs in a column strictly to the
left of column `i`.  When `i` exceeds the number of columns, the source's
inner loop runs past the end of `stks` and throws on
`stks[n].length` — unless the first target was already found in a real
column; `none` models that throw. -/
def isRightOf (objIds : List String) (i : ℤ) (stks : List Stack) : Option Bool :=
  if ¬ 0 ≤ i then some false
  else if objIds = [] then some false
  else if i ≤ (stks.length : ℤ) then
    some (objIds.any (fun id =>
      (List.range stks.length).any (fun n =>
        decide ((n : ℤ) < i) && (stks.getD n []).contains id)))
  else
    match objIds with
    | [] => some false
    | id0 :: _ =>
      if (List.range stks.length).any (fun n => (stks.getD n []).contains id0)
      then some true else none

/-- One block of `Interpreter.isBeside`: scan column `idx` for any target.
JavaScript evaluates `stks[idx].length` only once the loop over `objIds`
starts, so an empty target list never faults, while an out-of-range column
with a non-empty target list throws (`none`). -/
def besideCheck (objIds : List String) (idx : ℤ) (stks : List Stack) : Option Bool :=
  if objIds = [] then some false
  else match stackAt stks idx with
    | some col => some (objIds.any (fun id => col.contains id))
    | none => none

/-- `Interpreter.isBeside`: some target is in column `i - 1` or `i + 1`.
The source guards the first block with `i - 1 >= 0` but the second block
only with `i + 1 >= 0`, which never bounds the access to `stks[i + 1]`
from above. -/
def isBeside (objIds : List String) (i : ℤ) (stks : List Stack) : Option Bool :=
  match (if 1 ≤ i then besideCheck objIds (i - 1) stks else some false) with
  | none => none
  | some true => some true
  | some false =>
    if 0 ≤ i + 1 then besideCheck objIds (i + 1) stks else some false

/-- Loop of `Interpreter.isInside`: scan the targets in order; a target
missing from the objects map makes the source throw on the `.form` access
(`none`); a target that is not a box is skipped; otherwise compare it with
the entry at `(i, j)` (an out-of-range `j` reads `undefined` and simply
fails the comparison, but an out-of-range column `i` throws). -/
def insideLoop (objIds : List String) (i j : ℤ) (stks : List Stack) (objs : ObjMap) :
    Option Bool :=
  match objIds with
  | [] => some false
  | id :: rest =>
    match objs id with
    | none => none
    | some d =>
      if d.form != "box" then insideLoop rest i j stks objs
      else match stackAt stks i with
        | none => none
        | some col =>
          if col.get? j.toNat == some id then some true
          else insideLoop rest i j stks objs

/-- `Interpreter.isInside`: some target of form `box` sits exactly at
`(i, j)`; never true for the floor. -/
def isInside (objIds : List String) (i j : ℤ) (stks : List Stack) (objs : ObjMap) :
    Option Bool :=
  if objIds.head? == some "floor" then some false
  else if 0 ≤ i ∧ 0 ≤ j then insideLoop objIds i j stks objs
  else some false

/-- Loop of `Interpreter.isOnTop`: like `insideLoop`, but boxes and balls
are skipped (objects cannot rest on balls or on top of boxes). -/
def onTopLoop (objIds : List String) (i j : ℤ) (stks : List Stack) (objs : ObjMap) :
    Option Bool :=
  match objIds with
  | [] => some false
  | id :: rest =>
    match objs id with
    | none => none
    | some d =>
      if d.form == "box" || d.form == "ball" then onTopLoop rest i j stks objs
      else match stackAt stks i with
        | none => none
        | some col =>
          if col.get? j.toNat == some id then some true
          else onTopLoop rest i j stks objs

/-- `Interpreter.isOnTop`: some (non-box, non-ball) target sits exactly at
`(i, j)`; for the floor, true exactly when `j < 0` (bottom of a column). -/
def isOnTop (objIds : List String) (i j : ℤ) (stks : List Stack) (objs : ObjMap) :
    Option Bool :=
  if objIds.head? == some "floor" then some (decide (j < 0))
  else if 0 ≤ i ∧ 0 ≤ j then onTopLoop objIds i j stks objs
  else some false

/-- `Interpreter.isAbove`: some target lies strictly below position `j` in
column `i`; the floor is below everything.  The source has no bound check
on `i`: with a non-empty target list and `j > 0` it reads `stks[i]` and
throws when that column does not exist (`none`). -/
def isAbove (objIds : List String) (i j : ℤ) (stks : List Stack) : Option Bool :=
  if objIds.head? == some "floor" then some true
  else if objIds = [] ∨ j ≤ 0 then some false
  else match stackAt stks i with
    | none => none
    | some col =>
      some (objIds.any (fun id =>
        (List.range col.length).any (fun k =>
          decide ((k : ℤ) < j) && (col.get? k == some id))))

/-- `Interpreter.isUnder`: some target lies at a position `≥ j` in column
`i`; never true for the floor.  As in the source, a negative `j` only reads
`undefined` entries below index 0, so it behaves like `j = 0`; a non-empty
target list with a non-existent column `i` throws (`none`). -/
def isUnder (objIds : List String) (i j : ℤ) (stks : List Stack) : Option Bool :=
  if objIds.head? == some "floor" then some false
  else if objIds = [] then some false
  else match stackAt stks i with
    | none => none
    | some col =>
      some (objIds.any (fun id =>
        (List.range col.length).any (fun k =>
          decide (j ≤ (k : ℤ)) && (col.get? k == some id))))

/-- `Interpreter.isValidGoal`: whether the literal `relation(a, b)` is
physically admissible.  Identifiers are `Option String` since the planner's
`put` path passes the (possibly `null`) held object.  The result is
`none` when the source would throw a `TypeError` dereferencing an object
missing from the map (both definitions are accessed in the `inside` and
`ontop`/`above` branches). -/
def isValidGoal (relation : String) (objs : ObjMap) (aObj bObj : Option String) :
    Option Bool :=
  if aObj = bObj then some false
  else if aObj = some "floor" then some false
  else if bObj = some "floor" ∧ (relation = "ontop" ∨ relation = "above") then some true
  else if bObj = some "floor" ∧ relation = "inside" then some false
  else if relation = "inside" then
    match objs (jsKey aObj), objs (jsKey bObj) with
    | some c, some l =>
      some (!((c.size == "large" && l.size == "small") ||
              (l.form != "box") ||
              ((c.form == "pyramid" || c.form == "plank" || c.form == "box") &&
                c.size == l.size)))
    | _, _ => none
  else if relation = "ontop" ∨ relation = "above" then
    match objs (jsKey aObj), objs (jsKey bObj) with
    | some c, some l =>
      some (!((c.form == "ball" && !(l.form == "floor") && relation == "ontop") ||
              (l.form == "ball") ||
              (c.size == "large" && l.size == "small") ||
              (c.form == "box" && c.size == "small" && l.size == "small" &&
                (l.form == "brick" || l.form == "pyramid")) ||
              (c.form == "box" && c.size == "large" && l.form == "pyramid" &&
                l.size == "large") ||
              (relation == "ontop" && (l.form == "ball" || l.form == "box"))))
    | _, _ => none
  else some true

/-- `WorldState` from `World.ts`.  The `stacks` field is named `stks` here
because `stacks` is a reserved token in this Lean environment. -/
structure WorldState where
  arm : ℕ
  holding : Option String
  stks : List Stack
  objects : ObjMap

/-- A parse-tree object (`Parser.Object`): either a primitive description
`{form, size, color}` (a `null` size or color matches anything) or an
object with a relative clause, which the source detects via
`obj.object != undefined` and reads through `obj.object`,
`obj.location.relation` and `obj.location.entity.object` (quantifiers are
never read, so the `Entity` wrapper is flattened away). -/
inductive PObject where
  | leaf (form : String) (size : Option String) (color : Option String)
  | node (inner : PObject) (relation : String) (relObj : PObject)
deriving DecidableEq, Repr

/-- A parse-tree location (`Parser.Location`), flattened to the fields the
interpreter reads: `location.relation` and `location.entity.object`. -/
structure Location where
  relation : String
  object : PObject
deriving DecidableEq, Repr

/-- A parsed command (`Parser.Command`), flattened to the fields the
interpreter reads: the command word, `entity.object` and the location. -/
structure Command where
  command : String
  entity : Option PObject
  location : Option Location
deriving DecidableEq, Repr

/-- A literal of the goal formula (`Interpreter.Literal`).  Arguments are
`Option String` because the `put` branch stores `state.holding`, which can
be JavaScript `null`. -/
structure Literal where
  polarity : Bool
  relation : String
  args : List (Option String)
deriving DecidableEq, Repr

/-- A conjunction of literals (`Interpreter.Conjunction`). -/
abbrev Conjunction := List Literal

/-- A formula in disjunctive normal form (`Interpreter.DNFFormula`). -/
abbrev DNFFormula := List Conjunction

/-- A JavaScript exception: an `Error` with a message, a `TypeError` from an
`undefined` dereference, or a thrown `undefined` (from `throw errors[0]`
with an empty error list). -/
inductive JsErr where
  | error (msg : String)
  | typeError
  | undef
deriving DecidableEq, Repr

/-- Turn the `Option Bool` result of a physics predicate into the
interpreter's error monad (`none` was a thrown `TypeError`). -/
def ofOption : Option Bool → Except JsErr Bool
  | some b => .ok b
  | none => .error .typeError

/-- The spatial filter inside `getValidObjectIds`: keep each candidate
whose column/stack position satisfies the relation with respect to the
relatives.  `getColumnIndex` cannot return `null` here in the source
(candidates come from the stacks), and if it did, the subsequent
`getStackIndex` call would throw — which is what the `none` branch models.
A relation that matches no `switch` case keeps the candidate. -/
def filterByRelation (state : WorldState) (relatives : List String) (rel : String) :
    List String → Except JsErr (List String)
  | [] => .ok []
  | id :: rest => do
    match getColumnIndex (some id) state.stks with
    | none => throw .typeError
    | some i =>
      match getStackIndex (some id) i state.stks with
      | none => throw .typeError
      | some j =>
        let keep ←
          if rel = "leftof" then pure (isLeftOf relatives (i : ℤ) state.stks)
          else if rel = "rightof" then ofOption (isRightOf relatives (i : ℤ) state.stks)
          else if rel = "beside" then ofOption (isBeside relatives (i : ℤ) state.stks)
          else if rel = "inside" then
            ofOption (isInside relatives (i : ℤ) ((j : ℤ) - 1) state.stks state.objects)
          else if rel = "ontop" then
            ofOption (isOnTop relatives (i : ℤ) ((j : ℤ) - 1) state.stks state.objects)
          else if rel = "above" then
            ofOption (isAbove relatives (i : ℤ) (j : ℤ) state.stks)
          else if rel = "under" then
            ofOption (isUnder relatives (i : ℤ) ((j : ℤ) + 1) state.stks)
          else pure true
        let rest' ← filterByRelation state relatives rel rest
        pure (if keep then id :: rest' else rest')

/-- The attribute scan inside `getValidObjectIds` over one column: keep the
identifiers whose definition matches every specified field.  The source
dereferences `state.objects[objId].form` before any filter, so an
identifier missing from the map throws. -/
def scanColumn (objs : ObjMap) (form : String) (size color : Option String) :
    Stack → Except JsErr (List String)
  | [] => .ok []
  | id :: rest => do
    match objs id with
    | none => throw .typeError
    | some d => do
      let rest' ← scanColumn objs form size color rest
      let keep := (form == "anyform" || d.form == form) &&
        (color.isNone || some d.color == color) &&
        (size.isNone || some d.size == size)
      pure (if keep then id :: rest' else rest')

/-- The attribute scan over all columns, in increasing column order. -/
def scanStacks (objs : ObjMap) (form : String) (size color : Option String) :
    List Stack → Except JsErr (List String)
  | [] => .ok []
  | col :: rest => do
    let here ← scanColumn objs form size color col
    let there ← scanStacks objs form size color rest
    pure (here ++ there)

/-- `getValidObjectIds` (local function of `interpretCommand`): resolve a
parse-tree object to the matching identifiers.  A floor with a relative
clause throws; a plain floor resolves to `["floor"]`; a relative clause
filters the recursively resolved candidates by the spatial relation;
otherwise the stacks are scanned by attributes. -/
def getValidObjectIds (state : WorldState) : PObject → Except JsErr (List String)
  | .node inner rel relObj =>
    match inner with
    | .leaf "floor" _ _ => throw (.error "The floor cannot have relative descriptors.")
    | _ => do
      let objects ← getValidObjectIds state inner
      let relatives ← getValidObjectIds state relObj
      filterByRelation state relatives rel objects
  | .leaf form size color =>
    if form = "floor" then pure ["floor"]
    else scanStacks state.objects form size color state.stks

/-- The `take` branch of `interpretCommand`: a singleton conjunction
`holding(id)` for every resolved identifier except the floor. -/
def takeLits : List String → List Conjunction
  | [] => []
  | id :: rest =>
    if id = "floor" then takeLits rest
    else [⟨true, "holding", [some id]⟩] :: takeLits rest

/-- Inner loop of the `move` branch: all valid literals pairing `a` with
each target. -/
def moveLitsInner (rel : String) (objs : ObjMap) (a : String) :
    List String → Except JsErr (List Conjunction)
  | [] => .ok []
  | b :: rest => do
    match isValidGoal rel objs (some a) (some b) with
    | none => throw .typeError
    | some ok => do
      let more ← moveLitsInner rel objs a rest
      pure (if ok then [⟨true, rel, [some a, some b]⟩] :: more else more)

/-- The `move` branch of `interpretCommand`: the Cartesian product of the
command set and the location set, filtered by `isValidGoal`. -/
def moveLits (rel : String) (objs : ObjMap) :
    List String → List String → Except JsErr (List Conjunction)
  | [], _ => .ok []
  | a :: rest, targets => do
    let first ← moveLitsInner rel objs a targets
    let more ← moveLits rel objs rest targets
    pure (first ++ more)

/-- The `put` branch of `interpretCommand`: literals relating the held
object (which may be `null`) to each target. -/
def putLits (rel : String) (objs : ObjMap) (holding : Option String) :
    List String → Except JsErr (List Conjunction)
  | [] => .ok []
  | b :: rest => do
    match isValidGoal rel objs holding (some b) with
    | none => throw .typeError
    | some ok => do
      let more ← putLits rel objs holding rest
      pure (if ok then [⟨true, rel, [holding, some b]⟩] :: more else more)

/-- `Interpreter.interpretCommand`: resolve the entity and location sets,
emit literals by command kind, and throw when no literal was emitted.
When the `move`/`put` location is absent the source never reaches the
`cmdLoc.relation` access (the target set is empty, so the loops do not
run), hence those branches yield no literal rather than throwing. -/
def interpretCommand (cmd : Command) (state : WorldState) : Except JsErr DNFFormula := do
  let cmdObjIds ← match cmd.entity with
    | some obj => getValidObjectIds state obj
    | none => pure []
  let locObjIds ← match cmd.location with
    | some loc => getValidObjectIds state loc.object
    | none => pure []
  let interpretation ←
    if cmd.command = "take" then
      pure (takeLits cmdObjIds)
    else if cmd.command = "move" then
      match cmd.location with
      | none => pure []
      | some loc => moveLits loc.relation state.objects cmdObjIds locObjIds
    else if cmd.command = "put" then
      match cmd.location with
      | none => pure []
      | some loc => putLits loc.relation state.objects state.holding locObjIds
    else pure []
  if interpretation = [] then throw (.error "No interpretations found.")
  else pure interpretation

/-- `Parser.ParseResult`, reduced to the field the interpreter reads. -/
structure ParseResult where
  parse : Command
deriving DecidableEq, Repr

/-- `Interpreter.InterpretationResult`: a parse result augmented with its
interpretation. -/
structure InterpretationResult where
  parse : Command
  interpretation : DNFFormula
deriving DecidableEq, Repr

/-- The loop of `Interpreter.interpret`: try each parse, collecting
successes and captured errors; afterwards return the successes if any,
otherwise throw the first captured error (`throw errors[0]` is a thrown
`undefined` when no parse was given). -/
def interpretAux (state : WorldState) :
    List ParseResult → List JsErr → List InterpretationResult →
    Except JsErr (List InterpretationResult)
  | [], errors, interpretations =>
    if interpretations ≠ [] then .ok interpretations
    else .error (errors.headD .undef)
  | p :: rest, errors, interpretations =>
    match interpretCommand p.parse state with
    | .ok dnf => interpretAux state rest errors (interpretations ++ [⟨p.parse, dnf⟩])
    | .error e => interpretAux state rest (errors ++ [e]) interpretations

/-- `Interpreter.interpret`. -/
def interpret (parses : List ParseResult) (state : WorldState) :
    Except JsErr (List InterpretationResult) :=
  interpretAux state parses [] []

/-- `Planner.NodeState`: arm position, held object, stacks and the action
that produced the node (`"p"`, `"r"`, `"l"`, `"d"`, or `null` for the start
node).  The `objDefs` field is the same objects map for every node of a
search, so it is kept out of the structure and passed separately. -/
structure NodeState where
  arm : ℕ
  holding : Option String
  stks : List Stack
  command : Option String
deriving DecidableEq, Repr

/-- JavaScript stringification of a nested string array: elements joined by
commas, flattening one level (`[["a"],["b","c"]]` prints `"a,b,c"`). -/
def stacksToString (stks : List Stack) : String :=
  String.intercalate "," (stks.map (String.intercalate ","))

/-- JavaScript stringification of a possibly-`null` string. -/
def jsStr : Option String → String
  | some s => s
  | none => "null"

/-- The `id` field computed in the `NodeState` constructor:
`this.stacks + this.holding + this.arm + this.command`, using JavaScript
string coercion for each component. -/
def nodeId (n : NodeState) : String :=
  stacksToString n.stks ++ jsStr n.holding ++ toString n.arm ++ jsStr n.command

/-- `NodeState.compareTo`: 0 when the `id` strings coincide, else -1. -/
def compareTo (a b : NodeState) : ℤ :=
  if nodeId a = nodeId b then 0 else -1

/-- `StateGraph.compareNodes`, which just delegates to `compareTo`. -/
def compareNodes (a b : NodeState) : ℤ :=
  compareTo a b

/-- `literal.args[i]` as the source reads it: `none` stands both for a
stored `null` argument and for an out-of-range read (`undefined`), which
the source's comparisons treat alike. -/
def argAt (l : Literal) (i : ℕ) : Option String :=
  (l.args.get? i).join

/-- `NodeState.isLiteralGoal`: does the literal hold in this node?  A
`holding` literal compares the argument with the held object; a binary
literal is dispatched to the physics predicate anchored at the subject's
actual column and stack position.  `getStackIndex` cannot fail after
`getColumnIndex` succeeded (see `getStackIndex_of_getColumnIndex`); the
second argument list is the singleton `[literal.args[1]]`, which for the
binary literals the planner builds always exists.  A predicate that throws
(`isBeside` on the rightmost column) propagates as `none`. -/
def isLiteralGoal (objs : ObjMap) (node : NodeState) (l : Literal) : Option Bool :=
  if l.relation == "holding" then some (argAt l 0 == node.holding)
  else
    match getColumnIndex (argAt l 0) node.stks with
    | none => some false
    | some ci =>
      match getStackIndex (argAt l 0) ci node.stks with
      | none => some false
      | some si =>
        let targets : List String := match argAt l 1 with
          | some t => [t]
          | none => []
        if l.relation == "inside" then
          isInside targets (ci : ℤ) ((si : ℤ) - 1) node.stks objs
        else if l.relation == "ontop" then
          isOnTop targets (ci : ℤ) ((si : ℤ) - 1) node.stks objs
        else if l.relation == "leftof" then
          some (isLeftOf targets (ci : ℤ) node.stks)
        else if l.relation == "rightof" then
          isRightOf targets (ci : ℤ) node.stks
        else if l.relation == "beside" then
          isBeside targets (ci : ℤ) node.stks
        else if l.relation == "above" then
          isAbove targets (ci : ℤ) (si : ℤ) node.stks
        else if l.relation == "under" then
          isUnder targets (ci : ℤ) ((si : ℤ) + 1) node.stks
        else some false

/-- One conjunction of the goal test in `planInterpretation`: every literal
must hold; a throwing literal test propagates. -/
def conjHolds (objs : ObjMap) (node : NodeState) : List Literal → Option Bool
  | [] => some true
  | l :: rest =>
    match isLiteralGoal objs node l with
    | none => none
    | some true => conjHolds objs node rest
    | some false => some false

/-- The local `isGoal` of `planInterpretation`: some conjunction of the
DNF holds entirely. -/
def isGoalB (objs : ObjMap) (interp : DNFFormula) (node : NodeState) : Option Bool :=
  match interp with
  | [] => some false
  | c :: rest =>
    match conjHolds objs node c with
    | none => none
    | some true => some true
    | some false => isGoalB objs rest node

/-- A JavaScript number as used by the heuristic: an integer or
`Infinity`. -/
inductive JsNum where
  | num (z : ℤ)
  | inf
deriving DecidableEq, Repr

/-- JavaScript `<` on heuristic values (`Infinity < Infinity` is false). -/
def JsNum.lt : JsNum → JsNum → Bool
  | .num a, .num b => decide (a < b)
  | .num _, .inf => true
  | .inf, _ => false

/-- Modelled from the spec: `aboveCount(id)` — the number of objects
stacked above `id` in its column.  The planner's heuristic calls
`Interpreter.aboveObjects`, whose definition is not among the provided
sources (the planner links against a newer `Interpreter` revision); an
identifier with no column counts 0. -/
def aboveObjects (objId : Option String) (stks : List Stack) : ℤ :=
  match getColumnIndex objId stks with
  | none => 0
  | some i =>
    match getStackIndex objId i stks with
    | none => 0
    | some j => ((stks.getD i []).length : ℤ) - 1 - (j : ℤ)

/-- `Math.abs(node.arm - getColumnIndex(args[idx]))` from the heuristic; a
`null` column index coerces to 0 in the subtraction. -/
def armToTarget (node : NodeState) (l : Literal) (idx : ℕ) : ℤ :=
  (((node.arm : ℤ) - ((getColumnIndex (argAt l idx) node.stks).getD 0 : ℤ)).natAbs : ℤ)

/-- `distBtwObjs` from the heuristic: distance between the columns of the
two arguments, `null` indices coercing to 0. -/
def distBtwObjs (node : NodeState) (l : Literal) : ℤ :=
  ((((getColumnIndex (argAt l 0) node.stks).getD 0 : ℤ) -
    ((getColumnIndex (argAt l 1) node.stks).getD 0 : ℤ)).natAbs : ℤ)

/-- The `switch` of the heuristic: the estimate assigned for one literal,
or the previous value of `hCost` when the relation matches no case. -/
def hCostOf (node : NodeState) (l : Literal) (prev : JsNum) : JsNum :=
  let above (idx : ℕ) : ℤ := aboveObjects (argAt l idx) node.stks
  let reach (idx : ℕ) : ℤ := armToTarget node l idx
  let span : ℤ := distBtwObjs node l
  if l.relation == "holding" then .num (above 0 * 4 + reach 0)
  else if l.relation == "inside" || l.relation == "ontop" then
    .num ((above 0 + above 1) * 3 + reach 0 + reach 1)
  else if l.relation == "under" then .num (above 1 * 4 + span + reach 1)
  else if l.relation == "above" then .num (above 0 * 4 + span + reach 0)
  else if l.relation == "leftof" || l.relation == "rightof" then
    .num (above 0 * 4 + span + reach 0)
  else if l.relation == "beside" then .num (above 0 * 4 + span + reach 0 - 1)
  else prev

/-- The inner (literal) loop of the heuristic: return `Sum.inl ()` when a
literal is already satisfied (the source returns 0 from the whole
function), otherwise thread `hCost` through the switch — the *last*
literal's estimate survives. -/
def hLits (objs : ObjMap) (node : NodeState) :
    List Literal → JsNum → Option (Unit ⊕ JsNum)
  | [], acc => some (.inr acc)
  | l :: rest, acc =>
    match isLiteralGoal objs node l with
    | none => none
    | some true => some (.inl ())
    | some false => hLits objs node rest (hCostOf node l acc)

/-- The outer (conjunction) loop of the heuristic, tracking the minimum
`currentCost` over conjunctions. -/
def heuristicsAux (objs : ObjMap) (node : NodeState) :
    DNFFormula → JsNum → Option JsNum
  | [], current => some current
  | c :: rest, current =>
    match hLits objs node c .inf with
    | none => none
    | some (.inl ()) => some (.num 0)
    | some (.inr h) =>
      heuristicsAux objs node rest (if JsNum.lt h current then h else current)

/-- The local `heuristics` of `planInterpretation`. -/
def heuristics (objs : ObjMap) (interp : DNFFormula) (node : NodeState) : Option JsNum :=
  heuristicsAux objs node interp .inf

/-- An edge of the state graph (`Edge<NodeState>` from `Graph.ts`, as the
planner fills it in; the source's `from` and `to` fields are named `src`
and `tgt` here because `to` is a reserved token in this Lean
environment). -/
structure Edge where
  src : NodeState
  tgt : NodeState
  cost : ℕ
deriving DecidableEq, Repr

/-- The top object of the arm's column, or `"floor"` when it is empty
(`topObject` in the drop branch of `outgoingEdges`). -/
def topOf (col : Stack) : String :=
  match col.getLast? with
  | some t => t
  | none => "floor"

/-- The pick successor: the top of the arm's column is grasped and the
column shortened (the clone-then-`pop` of the source, in value
semantics). -/
def pickE (node : NodeState) (col : Stack) : Edge :=
  ⟨node, ⟨node.arm, col.getLast?, node.stks.set node.arm col.dropLast, some "p"⟩, 1⟩

/-- The move-right successor. -/
def rightE (node : NodeState) : Edge :=
  ⟨node, ⟨node.arm + 1, node.holding, node.stks, some "r"⟩, 1⟩

/-- The move-left successor. -/
def leftE (node : NodeState) : Edge :=
  ⟨node, ⟨node.arm - 1, node.holding, node.stks, some "l"⟩, 1⟩

/-- The drop successor: the held object is pushed onto the arm's column and
the grip cleared. -/
def dropE (node : NodeState) (col : Stack) : Edge :=
  ⟨node, ⟨node.arm, none, node.stks.set node.arm (col ++ node.holding.toList), some "d"⟩, 1⟩

/-- The drop guard of `outgoingEdges`:
`isValidGoal("inside", held, top) || isValidGoal("ontop", held, top)` with
JavaScript short-circuiting (the second call only runs when the first
returned false); `none` when an evaluated call throws. -/
def dropCheck (objs : ObjMap) (hd top : String) : Option Bool :=
  match isValidGoal "inside" objs (some hd) (some top) with
  | none => none
  | some v1 => if v1 then some true else isValidGoal "ontop" objs (some hd) (some top)

/-- `StateGraph.outgoingEdges`, in value semantics (cloning is invisible
here; the heap-level version below makes it explicit).  The source reads
`node.stacks[node.arm]` in the pick branch when nothing is held and in the
drop branch when something is held, so an out-of-range arm always throws
(`none`). -/
def outgoingEdges (objs : ObjMap) (node : NodeState) : Option (List Edge) :=
  match node.stks.get? node.arm with
  | none => none
  | some col =>
    let pickPart : List Edge :=
      match node.holding with
      | none => if col = [] then [] else [pickE node col]
      | some _ => []
    let rightPart : List Edge :=
      if node.arm + 1 < node.stks.length then [rightE node] else []
    let leftPart : List Edge :=
      if 0 < node.arm then [leftE node] else []
    match node.holding with
    | none => some (pickPart ++ rightPart ++ leftPart)
    | some hd =>
      match dropCheck objs hd (topOf col) with
      | none => none
      | some ok =>
        some (pickPart ++ rightPart ++ leftPart ++ (if ok then [dropE node col] else []))

/-- One search step: `y` is the target of some edge leaving `x`. -/
def stepToB (objs : ObjMap) (x y : NodeState) : Bool :=
  match outgoingEdges objs x with
  | some es => es.any (fun e => e.tgt == y)
  | none => false

/-- A path through the state graph, given by the list of nodes after the
start; its length is the number of actions of the corresponding plan. -/
def isPathB (objs : ObjMap) : NodeState → List NodeState → Bool
  | _, [] => true
  | s, n :: rest => stepToB objs s n && isPathB objs n rest

/-- `Planner.PlannerResult`: an interpretation result augmented with its
plan. -/
structure PlannerResult where
  result : InterpretationResult
  plan : List String
deriving DecidableEq, Repr

/-- The loop of `Planner.plan`, with the per-interpretation planner
abstracted as `f`: `planInterpretation` invokes the external best-first
search driver (`Graph.ts`, not among the provided sources), while the
error-capture policy under study lives entirely in this loop, so it is
proved for every such `f`.  An empty returned plan is replaced by the
single utterance pushed by the source. -/
def planAux (f : DNFFormula → WorldState → Except JsErr (List String))
    (state : WorldState) :
    List InterpretationResult → List JsErr → List PlannerResult →
    Except JsErr (List PlannerResult)
  | [], errors, plans =>
    if plans ≠ [] then .ok plans
    else .error (errors.headD .undef)
  | itp :: rest, errors, plans =>
    match f itp.interpretation state with
    | .ok pl =>
      planAux f state rest errors
        (plans ++ [⟨itp, if pl = [] then ["That is already true!"] else pl⟩])
    | .error e => planAux f state rest (errors ++ [e]) plans

/-- `Planner.plan` with the per-interpretation planner abstracted. -/
def planWith (f : DNFFormula → WorldState → Except JsErr (List String))
    (interps : List InterpretationResult) (state : WorldState) :
    Except JsErr (List PlannerResult) :=
  planAux f state interps [] []

/-- The heap of the store-level model: each allocated column array is a
cell holding its contents.  References are indices into this list. -/
abbrev Heap := List Stack

/-- A planner node at store level: `stks` holds one reference per column
array, as a JavaScript `Stack[]` does. -/
structure NodeStateH where
  arm : ℕ
  holding : Option String
  stks : List ℕ
  command : Option String
deriving DecidableEq, Repr

/-- A state-graph edge at store level. -/
structure EdgeH where
  src : NodeStateH
  tgt : NodeStateH
  cost : ℕ
deriving DecidableEq, Repr

/-- `StateGraph.cloneStacks` at store level: allocate a fresh cell for each
column, copying its contents, in column order; returns the fresh
references and the extended heap. -/
def cloneStacksH : List ℕ → Heap → List ℕ × Heap
  | [], h => ([], h)
  | r :: rs, h =>
    let res := cloneStacksH rs (h ++ [h.getD r []])
    (h.length :: res.1, res.2)

/-- The pick branch of `outgoingEdges` at store level: when nothing is held
and the arm's column (reference `r`) is non-empty, clone the stacks and
`pop` the cloned arm column. -/
def pickStage (node : NodeStateH) (r : ℕ) (h : Heap) : List EdgeH × Heap :=
  match node.holding with
  | none =>
    let col := h.getD r []
    if col = [] then ([], h)
    else
      let cl := cloneStacksH node.stks h
      match cl.1.get? node.arm with
      | some r' =>
        ([⟨node, ⟨node.arm, col.getLast?, cl.1, some "p"⟩, 1⟩], cl.2.set r' col.dropLast)
      | none => ([], cl.2)
  | some _ => ([], h)

/-- The move-left/right branches at store level: clone the stacks and move
the arm to `newArm` when the guard `b` holds. -/
def moveStage (node : NodeStateH) (newArm : ℕ) (cmd : String) (b : Bool) (h : Heap) :
    List EdgeH × Heap :=
  if b then
    let cl := cloneStacksH node.stks h
    ([⟨node, ⟨newArm, node.holding, cl.1, some cmd⟩, 1⟩], cl.2)
  else ([], h)

/-- The drop branch at store level: read the arm's column through reference
`r`, check the physical laws for the held object `hd`, and on success clone
the stacks and `push` onto the cloned arm column. -/
def dropStage (objs : ObjMap) (node : NodeStateH) (hd : String) (r : ℕ) (h : Heap) :
    Option (List EdgeH × Heap) :=
  let stack := h.getD r []
  match dropCheck objs hd (topOf stack) with
  | none => none
  | some ok =>
    if ok then
      let cl := cloneStacksH node.stks h
      match cl.1.get? node.arm with
      | some r' =>
        some ([⟨node, ⟨node.arm, none, cl.1, some "d"⟩, 1⟩], cl.2.set r' (stack ++ [hd]))
      | none => some ([], cl.2)
    else some ([], h)

/-- `StateGraph.outgoingEdges` at store level, composing the four stages in
source order (pick, right, left, drop) while threading the heap. -/
def outgoingEdgesH (objs : ObjMap) (node : NodeStateH) (h : Heap) :
    Option (List EdgeH × Heap) :=
  match node.stks.get? node.arm with
  | none => none
  | some r =>
    let s1 := pickStage node r h
    let s2 := moveStage node (node.arm + 1) "r" (decide (node.arm + 1 < node.stks.length)) s1.2
    let s3 := moveStage node (node.arm - 1) "l" (decide (0 < node.arm)) s2.2
    match node.holding with
    | none => some (s1.1 ++ s2.1 ++ s3.1, s3.2)
    | some hd =>
      match dropStage objs node hd r s3.2 with
      | none => none
      | some s4 => some (s1.1 ++ s2.1 ++ s3.1 ++ s4.1, s4.2)

/-- `cloneStacksH` only appends fresh cells to the heap. -/
theorem cloneStacksH_snd (rs : List ℕ) (h : Heap) :
    ∃ t, (cloneStacksH rs h).2 = h ++ t := by
  induction rs generalizing h with
  | nil => exact ⟨[], by simp [cloneStacksH]⟩
  | cons r rest ih =>
    rcases ih (h ++ [h.getD r []]) with ⟨t, ht⟩
    refine ⟨h.getD r [] :: t, ?_⟩
    show (cloneStacksH rest (h ++ [h.getD r []])).2 = _
    rw [ht]
    simp

/-- Every reference returned by `cloneStacksH` points at a freshly
allocated cell: it is at or beyond the old heap's end. -/
theorem cloneStacksH_fst_ge (rs : List ℕ) (h : Heap) :
    ∀ x ∈ (cloneStacksH rs h).1, h.length ≤ x := by
  induction rs generalizing h with
  | nil => intro x hx; simp [cloneStacksH] at hx
  | cons r rest ih =>
    intro x hx
    simp only [cloneStacksH, List.mem_cons] at hx
    rcases hx with hx | hx
    · subst hx; exact le_refl _
    · have hge := ih (h ++ [h.getD r []]) x hx
      simp only [List.length_append, List.length_cons, List.length_nil] at hge
      omega

/-- Setting a fresh cell keeps the original heap a prefix. -/
theorem set_ext_of_ext (h h2 : Heap) (r : ℕ) (v : Stack)
    (hext : ∃ t, h2 = h ++ t) (hr : h.length ≤ r) :
    ∃ t, h2.set r v = h ++ t := by
  rcases hext with ⟨t, ht⟩
  subst ht
  exact ⟨t.set (r - h.length) v, List.set_append_right r v hr⟩

/-- `pickStage` extends the heap and emits only edges from `node` with
cost 1 whose stacks are entirely fresh. -/
theorem pickStage_spec (node : NodeStateH) (r : ℕ) (h : Heap) :
    (∃ t, (pickStage node r h).2 = h ++ t) ∧
    (∀ e ∈ (pickStage node r h).1,
      e.src = node ∧ e.cost = 1 ∧ ∀ x ∈ e.tgt.stks, h.length ≤ x) := by
  obtain ⟨arm, holding, stks0, cmd⟩ := node
  cases holding with
  | some hd =>
    exact ⟨⟨[], by simp [pickStage]⟩, by intro e he; simp [pickStage] at he⟩
  | none =>
    by_cases hc : h.getD r [] = []
    · simp only [pickStage]
      rw [if_pos hc]
      exact ⟨⟨[], by simp⟩, by intro e he; simp at he⟩
    · simp only [pickStage]
      rw [if_neg hc]
      rcases hg : (cloneStacksH stks0 h).1.get? arm with _ | rr
      · simp only [hg]
        exact ⟨cloneStacksH_snd stks0 h, by intro e he; simp at he⟩
      · simp only [hg]
        have hrr : h.length ≤ rr := cloneStacksH_fst_ge stks0 h rr (List.get?_mem hg)
        refine ⟨set_ext_of_ext h _ rr _ (cloneStacksH_snd stks0 h) hrr, ?_⟩
        intro e he
        simp only [List.mem_singleton] at he
        subst he
        exact ⟨rfl, rfl, cloneStacksH_fst_ge stks0 h⟩

/-- `moveStage` extends the heap and emits only edges from `node` with
cost 1 whose stacks are entirely fresh. -/
theorem moveStage_spec (node : NodeStateH) (newArm : ℕ) (cmd : String) (b : Bool)
    (h : Heap) :
    (∃ t, (moveStage node newArm cmd b h).2 = h ++ t) ∧
    (∀ e ∈ (moveStage node newArm cmd b h).1,
      e.src = node ∧ e.cost = 1 ∧ ∀ x ∈ e.tgt.stks, h.length ≤ x) := by
  unfold moveStage
  cases b with
  | false =>
    rw [if_neg (by simp)]
    exact ⟨⟨[], by simp⟩, by intro e he; simp at he⟩
  | true =>
    rw [if_pos rfl]
    refine ⟨cloneStacksH_snd node.stks h, ?_⟩
    intro e he
    simp only [List.mem_singleton] at he
    subst he
    exact ⟨rfl, rfl, cloneStacksH_fst_ge node.stks h⟩

/-- `dropStage`, when it runs to completion, extends the heap and emits
only edges from `node` with cost 1 whose stacks are entirely fresh. -/
theorem dropStage_spec (objs : ObjMap) (node : NodeStateH) (hd : String) (r : ℕ)
    (h : Heap) (s4 : List EdgeH × Heap)
    (hrun : dropStage objs node hd r h = some s4) :
    (∃ t, s4.2 = h ++ t) ∧
    (∀ e ∈ s4.1,
      e.src = node ∧ e.cost = 1 ∧ ∀ x ∈ e.tgt.stks, h.length ≤ x) := by
  unfold dropStage at hrun
  rcases hdc : dropCheck objs hd (topOf (h.getD r [])) with _ | ok
  · simp only [hdc] at hrun
    exact absurd hrun (by simp)
  · simp only [hdc] at hrun
    cases ok with
    | false =>
      simp only [Bool.false_eq_true, if_false, Option.some.injEq] at hrun
      subst hrun
      exact ⟨⟨[], by simp⟩, by intro e he; simp at he⟩
    | true =>
      rw [if_pos rfl] at hrun
      rcases hg : (cloneStacksH node.stks h).1.get? node.arm with _ | rr
      · simp only [hg, Option.some.injEq] at hrun
        subst hrun
        exact ⟨cloneStacksH_snd node.stks h, by intro e he; simp at he⟩
      · simp only [hg, Option.some.injEq] at hrun
        subst hrun
        have hrr : h.length ≤ rr :=
          cloneStacksH_fst_ge node.stks h rr (List.get?_mem hg)
        refine ⟨set_ext_of_ext h _ rr _ (cloneStacksH_snd node.stks h) hrr, ?_⟩
        intro e he
        simp only [List.mem_singleton] at he
        subst he
        exact ⟨rfl, rfl, cloneStacksH_fst_ge node.stks h⟩

/-- Claim C8: successor generation never mutates its input.  Under a
successful run with a well-formed node (every column reference inside the
heap), the final heap extends the initial one — so the contents of every
cell reachable from the parent node are unchanged — every emitted edge
leaves the untouched parent node, and no successor's stacks share a
reference (alias) with the parent's stacks: they are entirely fresh
cells. -/
theorem outgoingEdgesH_no_mutation (objs : ObjMap) (node : NodeStateH) (h : Heap)
    (es : List EdgeH) (hfin : Heap)
    (hwf : ∀ r ∈ node.stks, r < h.length)
    (hrun : outgoingEdgesH objs node h = some (es, hfin)) :
    (∃ t, hfin = h ++ t) ∧
    (∀ e ∈ es, e.src = node) ∧
    (∀ e ∈ es, ∀ x ∈ e.tgt.stks, x ∉ node.stks) ∧
    (∀ r ∈ node.stks, hfin.getD r [] = h.getD r []) := by
  unfold outgoingEdgesH at hrun
  rcases hga : node.stks.get? node.arm with _ | r
  · simp only [hga] at hrun
    exact absurd hrun (by simp)
  · simp only [hga] at hrun
    obtain ⟨⟨t1, he1⟩, hp1⟩ := pickStage_spec node r h
    obtain ⟨⟨t2, he2⟩, hp2⟩ :=
      moveStage_spec node (node.arm + 1) "r" (decide (node.arm + 1 < node.stks.length))
        (pickStage node r h).2
    obtain ⟨⟨t3, he3⟩, hp3⟩ :=
      moveStage_spec node (node.arm - 1) "l" (decide (0 < node.arm))
        (moveStage node (node.arm + 1) "r" (decide (node.arm + 1 < node.stks.length))
          (pickStage node r h).2).2
    have hlen1 : h.length ≤ (pickStage node r h).2.length := by
      rw [he1]; simp
    have hlen2 : h.length ≤
        (moveStage node (node.arm + 1) "r" (decide (node.arm + 1 < node.stks.length))
          (pickStage node r h).2).2.length := by
      rw [he2]
      simp only [List.length_append]
      omega
    have hlen3 : h.length ≤
        (moveStage node (node.arm - 1) "l" (decide (0 < node.arm))
          (moveStage node (node.arm + 1) "r" (decide (node.arm + 1 < node.stks.length))
            (pickStage node r h).2).2).2.length := by
      rw [he3]
      simp only [List.length_append]
      omega
    have hfinish : (∃ t, hfin = h ++ t) →
        (∀ e ∈ es, e.src = node ∧ ∀ x ∈ e.tgt.stks, h.length ≤ x) →
        (∃ t, hfin = h ++ t) ∧
        (∀ e ∈ es, e.src = node) ∧
        (∀ e ∈ es, ∀ x ∈ e.tgt.stks, x ∉ node.stks) ∧
        (∀ r ∈ node.stks, hfin.getD r [] = h.getD r []) := by
      intro hext hall
      refine ⟨hext, fun e he => (hall e he).1, ?_, ?_⟩
      · intro e he x hx hmem
        have hx1 := (hall e he).2 x hx
        have hx2 := hwf x hmem
        omega
      · intro q hq
        rcases hext with ⟨t, ht⟩
        subst ht
        simp [List.getD_eq_getElem?_getD, List.getElem?_append_left (hwf q hq)]
    rcases hh : node.holding with _ | hd
    · simp only [hh, Option.some.injEq, Prod.mk.injEq] at hrun
      obtain ⟨hes, hheap⟩ := hrun
      subst hes
      subst hheap
      refine hfinish ⟨t1 ++ t2 ++ t3, ?_⟩ ?_
      · rw [he3, he2, he1]
        simp
      · intro e he
        simp only [List.mem_append] at he
        rcases he with (he | he) | he
        · obtain ⟨ha, _, hc⟩ := hp1 e he
          exact ⟨ha, hc⟩
        · obtain ⟨ha, _, hc⟩ := hp2 e he
          exact ⟨ha, fun x hx => le_trans hlen1 (hc x hx)⟩
        · obtain ⟨ha, _, hc⟩ := hp3 e he
          exact ⟨ha, fun x hx => le_trans hlen2 (hc x hx)⟩
    · simp only [hh] at hrun
      rcases hds : dropStage objs node hd r
          (moveStage node (node.arm - 1) "l" (decide (0 < node.arm))
            (moveStage node (node.arm + 1) "r" (decide (node.arm + 1 < node.stks.length))
              (pickStage node r h).2).2).2 with _ | s4
      · simp only [hds] at hrun
        exact absurd hrun (by simp)
      · simp only [hds, Option.some.injEq, Prod.mk.injEq] at hrun
        obtain ⟨hes, hheap⟩ := hrun
        subst hes
        subst hheap
        obtain ⟨⟨t4, he4⟩, hp4⟩ := dropStage_spec _ _ _ _ _ _ hds
        refine hfinish ⟨t1 ++ t2 ++ t3 ++ t4, ?_⟩ ?_
        · rw [he4, he3, he2, he1]
          simp
        · intro e he
          simp only [List.mem_append] at he
          rcases he with ((he | he) | he) | he
          · obtain ⟨ha, _, hc⟩ := hp1 e he
            exact ⟨ha, hc⟩
          · obtain ⟨ha, _, hc⟩ := hp2 e he
            exact ⟨ha, fun x hx => le_trans hlen1 (hc x hx)⟩
          · obtain ⟨ha, _, hc⟩ := hp3 e he
            exact ⟨ha, fun x hx => le_trans hlen2 (hc x hx)⟩
          · obtain ⟨ha, _, hc⟩ := hp4 e he
            exact ⟨ha, fun x hx => le_trans hlen3 (hc x hx)⟩

/-- The concrete store used to witness C8: one column `["a"]` at cell 0,
referenced by a node with nothing held and the arm over it. -/
def c8node : NodeStateH := ⟨0, none, [0], none⟩

/-- Claim C8 witness: the no-mutation theorem applied to the concrete
store `[["a"]]` — cell 0, referenced by the parent, is unchanged in the
final heap. -/
theorem outgoingEdgesH_no_mutation_witness :
    ([["a"], []] : Heap).getD 0 [] = ([["a"]] : Heap).getD 0 [] :=
  (outgoingEdgesH_no_mutation (fun _ => none) c8node [["a"]]
      [EdgeH.mk c8node ⟨0, some "a", [1], some "p"⟩ 1] [["a"], []]
      (by decide) (by decide)).2.2.2 0 (by simp [c8node])

/-- Once `getColumnIndex` finds a column for an identifier, scanning that
column with `getStackIndex` finds a position: the `null` cases collapsed in
these embeddings are unreachable on the source's call paths. -/
theorem getStackIndex_of_getColumnIndex (objId : Option String) (stks : List Stack)
    (i : ℕ) (h : getColumnIndex objId stks = some i) :
    ∃ j, getStackIndex objId i stks = some j := by
  unfold getColumnIndex at h
  have hmem := List.findIdx?_of_eq_some h
  rcases hget : stks[i]? with _ | col
  · simp [hget] at hmem
  · simp only [hget] at hmem
    have hcol : stks.getD i [] = col := by
      simp [List.getD_eq_getElem?_getD, hget]
    unfold getStackIndex
    rw [hcol]
    rcases hfi : col.findIdx? (fun x => some x == objId) with _ | j
    · rw [List.findIdx?_eq_none_iff] at hfi
      rcases List.any_eq_true.mp hmem with ⟨x, hx, hpx⟩
      exact absurd (hfi x hx) (by simp [hpx])
    · exact ⟨j, rfl⟩

/-- Claim C2 (counterexample): node equality does NOT ignore the action
used to reach a node.  The nodes `(0, null, [["a"]], "p")` and
`(0, null, [["a"]], "d")` agree on arm, holding and stacks yet
`compareNodes` returns -1, because the `id` string concatenates the
`command` field.  Moreover the stringified `id` collides for structurally
different stacks: `[["a"], ["b"]]` and `[["a", "b"]]` both print `"a,b"`,
so two nodes differing in their stacks compare equal. -/
theorem compareNodes_counterexample :
    (NodeState.mk 0 none [["a"]] (some "p")).arm
        = (NodeState.mk 0 none [["a"]] (some "d")).arm ∧
    (NodeState.mk 0 none [["a"]] (some "p")).holding
        = (NodeState.mk 0 none [["a"]] (some "d")).holding ∧
    (NodeState.mk 0 none [["a"]] (some "p")).stks
        = (NodeState.mk 0 none [["a"]] (some "d")).stks ∧
    compareNodes (NodeState.mk 0 none [["a"]] (some "p"))
        (NodeState.mk 0 none [["a"]] (some "d")) ≠ 0 ∧
    (NodeState.mk 1 none [["a"], ["b"]] none).stks
        ≠ (NodeState.mk 1 none [["a", "b"]] none).stks ∧
    compareNodes (NodeState.mk 1 none [["a"], ["b"]] none)
        (NodeState.mk 1 none [["a", "b"]] none) = 0 := by
  refine ⟨rfl, rfl, rfl, ?_, ?_, ?_⟩ <;> decide

/-- Claim C2 (amended): `compareNodes(a, b) = 0` exactly when the `id`
strings of the two nodes coincide, where the `id` concatenates the
JavaScript stringifications of `stacks`, `holding`, `arm` and the
`command` (last action) field. -/
theorem compareNodes_eq_zero_iff (a b : NodeState) :
    compareNodes a b = 0 ↔ nodeId a = nodeId b := by
  unfold compareNodes compareTo
  split <;> simp_all

/-- Claim C3 (counterexample): with the floor as target, `isValidGoal`
returns true — not false — for the relation `"leftof"`: the floor branch
returns early only for `ontop`/`above`/`inside`, and `leftof` falls
through the physical-law `switch` to the final `return true`. -/
theorem isValidGoal_leftof_floor :
    isValidGoal "leftof" (fun _ => none) (some "a") (some "floor") = some true := by
  decide

/-- Claim C3 (amended): `isValidGoal` returns false when the two arguments
coincide, and false when the subject is the floor; when the target is the
floor it returns false for `"inside"` and true for every other relation —
`ontop` and `above` by the floor branch, and all remaining relations
(`leftof`, `rightof`, `beside`, `under`, ...) by falling through the
physical-law `switch`. -/
theorem isValidGoal_floor_cases (r : String) (objs : ObjMap) (a b : Option String) :
    (a = b → isValidGoal r objs a b = some false) ∧
    (a = some "floor" → isValidGoal r objs a b = some false) ∧
    (a ≠ b → a ≠ some "floor" → b = some "floor" →
      isValidGoal r objs a b = some (decide (r ≠ "inside"))) := by
  refine ⟨?_, ?_, ?_⟩
  · intro h; simp [isValidGoal, h]
  · intro h
    unfold isValidGoal
    by_cases hab : a = b <;> simp [hab, h]
  · intro hab haf hbf
    subst hbf
    unfold isValidGoal
    rw [if_neg hab, if_neg haf]
    by_cases h1 : r = "ontop" <;> by_cases h2 : r = "above" <;>
      by_cases h3 : r = "inside" <;> simp_all

/-- Claim C3 witness: the amended floor law evaluated at the relation
`"under"` with target floor. -/
theorem isValidGoal_floor_cases_witness :
    isValidGoal "under" (fun _ => none) (some "x") (some "floor") = some true := by
  have h := (isValidGoal_floor_cases "under" (fun _ => none)
      (some "x") (some "floor")).2.2 (by decide) (by decide) rfl
  simpa using h

/-- The objects map of end-to-end scenario 4: `a` a large box, `b` a small
brick. -/
def c4objs : ObjMap := fun s =>
  if s = "a" then some ⟨"box", "large", "red"⟩
  else if s = "b" then some ⟨"brick", "small", "blue"⟩
  else none

/-- Claim C4 (counterexample): `isValidGoal("ontop", b, a)` with `a` a
large box and `b` a small brick is false, not true: the `ontop` branch
rejects every box target (`inside` must be used instead). -/
theorem isValidGoal_ontop_box_counterexample :
    isValidGoal "ontop" c4objs (some "b") (some "a") = some false := by
  decide

/-- Claim C4 (amended): in a world where `a` is a large box and `b` a
small brick, `isValidGoal("inside", b, a)` is true but
`isValidGoal("ontop", b, a)` is false. -/
theorem isValidGoal_box_brick (objs : ObjMap) (da db : ObjectDefinition)
    (hda : objs "a" = some da) (hfa : da.form = "box") (hsa : da.size = "large")
    (hdb : objs "b" = some db) (hfb : db.form = "brick") (hsb : db.size = "small") :
    isValidGoal "ontop" objs (some "b") (some "a") = some false ∧
    isValidGoal "inside" objs (some "b") (some "a") = some true := by
  unfold isValidGoal jsKey
  simp [hda, hdb, hfa, hsa, hfb, hsb]

/-- Claim C4 witness: the amended statement evaluated on the concrete
scenario-4 objects map. -/
theorem isValidGoal_box_brick_witness :
    isValidGoal "ontop" c4objs (some "b") (some "a") = some false ∧
    isValidGoal "inside" c4objs (some "b") (some "a") = some true :=
  isValidGoal_box_brick c4objs ⟨"box", "large", "red"⟩ ⟨"brick", "small", "blue"⟩
    rfl rfl rfl rfl rfl rfl

/-- Claim C9: for the relations `leftof`, `rightof`, `beside` and `under`,
`isValidGoal` is true whenever the arguments are distinct non-floor
identifiers: the physical-law `switch` constrains only `inside`, `ontop`
and `above`, so no size or form combination invalidates these goals. -/
theorem isValidGoal_horizontal (r : String) (objs : ObjMap) (a b : String)
    (hr : r = "leftof" ∨ r = "rightof" ∨ r = "beside" ∨ r = "under")
    (hab : a ≠ b) (ha : a ≠ "floor") (hb : b ≠ "floor") :
    isValidGoal r objs (some a) (some b) = some true := by
  unfold isValidGoal
  rcases hr with h | h | h | h <;> subst h <;> simp [hab, ha, hb]

/-- Claim C9 witness: a `rightof` goal between two ordinary objects is
always admissible. -/
theorem isValidGoal_horizontal_witness :
    isValidGoal "rightof" (fun _ => none) (some "x") (some "y") = some true :=
  isValidGoal_horizontal "rightof" (fun _ => none) "x" "y"
    (Or.inr (Or.inl rfl)) (by decide) (by decide) (by decide)

/-- Claim C10: `isBeside` is NOT total over valid column indices.  With
the single-column world `[["a"]]`, targets `["a"]` and the valid column
index 0, the source evaluates `stacks[1].length` — an out-of-range read —
and throws a `TypeError` instead of returning a boolean: the second guard
`i + 1 >= 0` never bounds the access from above. -/
theorem isBeside_rightmost_throws :
    isBeside ["a"] 0 [["a"]] = none := by
  decide

/-- The world of the `put`-with-empty-gripper scenario: one small ball in
column 0, nothing held. -/
def c6state : WorldState :=
  ⟨0, none, [["a"]], fun s => if s = "a" then some ⟨"ball", "small", "white"⟩ else none⟩

/-- The parse of "put it on the floor". -/
def c6cmd : Command :=
  ⟨"put", none, some ⟨"ontop", .leaf "floor" none none⟩⟩

/-- Claim C6: interpreting a `put` command with nothing held does NOT
always fail: the source never checks `state.holding` in the `put` branch,
and with the floor as target `isValidGoal("ontop", null, "floor")` returns
true before ever dereferencing the held object, so a DNF containing the
nonsensical literal `ontop(null, floor)` is returned instead of an
error. -/
theorem interpretCommand_put_nothing_held :
    c6state.holding = none ∧
    interpretCommand c6cmd c6state =
      .ok [[⟨true, "ontop", [none, some "floor"]⟩]] :=
  ⟨rfl, rfl⟩

/-- The objects map for the heuristic counterexample: `a` a small brick,
`b` a large table. -/
def c1objs : ObjMap := fun s =>
  if s = "a" then some ⟨"brick", "small", "white"⟩
  else if s = "b" then some ⟨"table", "large", "red"⟩
  else none

/-- The start node of the heuristic counterexample: five columns, `a` in
column 3, `b` in column 4, arm at column 0, nothing held. -/
def c1start : NodeState := ⟨0, none, [[], [], [], ["a"], ["b"]], none⟩

/-- The goal `ontop(a, b)` as a one-conjunct DNF. -/
def c1dnf : DNFFormula := [[⟨true, "ontop", [some "a", some "b"]⟩]]

/-- The six-action plan r r r p r d from `c1start` to a goal node. -/
def c1path : List NodeState :=
  [⟨1, none, [[], [], [], ["a"], ["b"]], some "r"⟩,
   ⟨2, none, [[], [], [], ["a"], ["b"]], some "r"⟩,
   ⟨3, none, [[], [], [], ["a"], ["b"]], some "r"⟩,
   ⟨3, some "a", [[], [], [], [], ["b"]], some "p"⟩,
   ⟨4, some "a", [[], [], [], [], ["b"]], some "r"⟩,
   ⟨4, none, [[], [], [], [], ["b", "a"]], some "d"⟩]

/-- Claim C1: the heuristic is NOT admissible.  For the goal `ontop(a, b)`
from `c1start` (trivially reachable, being the start node), the heuristic
value is 3·(0+0) + |0−3| + |0−4| = 7, yet the six-action plan r r r p r d
already reaches a node satisfying `isGoal`, so the shortest distance to a
goal is at most 6 < 7. -/
theorem heuristics_overestimates :
    heuristics c1objs c1dnf c1start = some (.num 7) ∧
    isPathB c1objs c1start c1path = true ∧
    c1path.getLast? = some ⟨4, none, [[], [], [], [], ["b", "a"]], some "d"⟩ ∧
    isGoalB c1objs c1dnf ⟨4, none, [[], [], [], [], ["b", "a"]], some "d"⟩ = some true ∧
    c1path.length = 6 ∧ (6 : ℤ) < 7 := by
  exact ⟨by decide, by decide, by decide, by decide, by decide, by decide⟩

/-- Claim C5: under a successful run (`some es`), `outgoingEdges` returns
exactly the edges licensed by the four guards, in the fixed order pick,
right, left, drop: a pick edge iff nothing is held and the arm's column is
non-empty (grasping its top and shortening it), a right edge iff
`arm + 1 < numColumns`, a left edge iff `arm > 0`, and a drop edge iff
something is held and `isValidGoal("inside", held, top)` or
`isValidGoal("ontop", held, top)` holds for the top of the arm's column
(`"floor"` when empty).  Every edge has cost 1, and with a single column
no left or right successor is ever generated. -/
theorem outgoingEdges_characterization (objs : ObjMap) (node : NodeState)
    (es : List Edge) (col : Stack)
    (hcol : node.stks.get? node.arm = some col)
    (h : outgoingEdges objs node = some es) :
    es = (if node.holding = none ∧ col ≠ [] then [pickE node col] else [])
      ++ (if node.arm + 1 < node.stks.length then [rightE node] else [])
      ++ (if 0 < node.arm then [leftE node] else [])
      ++ (if node.holding ≠ none ∧
            (isValidGoal "inside" objs node.holding (some (topOf col)) = some true ∨
             isValidGoal "ontop" objs node.holding (some (topOf col)) = some true)
          then [dropE node col] else []) ∧
    (∀ e ∈ es, e.cost = 1) ∧
    (node.stks.length = 1 →
      ∀ e ∈ es, e.tgt.command ≠ some "l" ∧ e.tgt.command ≠ some "r") := by
  have harm : node.arm < node.stks.length := by
    by_contra hge
    rw [List.get?_eq_none.mpr (Nat.le_of_not_lt hge)] at hcol
    exact Option.noConfusion hcol
  have hes : es =
      (if node.holding = none ∧ col ≠ [] then [pickE node col] else [])
      ++ (if node.arm + 1 < node.stks.length then [rightE node] else [])
      ++ (if 0 < node.arm then [leftE node] else [])
      ++ (if node.holding ≠ none ∧
            (isValidGoal "inside" objs node.holding (some (topOf col)) = some true ∨
             isValidGoal "ontop" objs node.holding (some (topOf col)) = some true)
          then [dropE node col] else []) := by
    cases hhold : node.holding with
    | none =>
      simp only [outgoingEdges, hcol, hhold, Option.some.injEq] at h
      subst h
      by_cases hc : col = [] <;> simp [hc]
    | some hd =>
      cases hdc : dropCheck objs hd (topOf col) with
      | none =>
        simp only [outgoingEdges, hcol, hhold, hdc] at h
        exact absurd h (by simp)
      | some ok =>
        simp only [outgoingEdges, hcol, hhold, hdc, Option.some.injEq] at h
        subst h
        have hg : (¬ some hd = none ∧
            (isValidGoal "inside" objs (some hd) (some (topOf col)) = some true ∨
             isValidGoal "ontop" objs (some hd) (some (topOf col)) = some true)) ↔
            ok = true := by
          unfold dropCheck at hdc
          rcases hin : isValidGoal "inside" objs (some hd) (some (topOf col)) with _ | b
          · simp only [hin] at hdc
            exact absurd hdc (by simp)
          · simp only [hin] at hdc
            cases b with
            | true =>
              simp only [if_pos, Option.some.injEq] at hdc
              simp [hin, ← hdc]
            | false =>
              simp only [Bool.false_eq_true, if_false] at hdc
              rw [hdc]
              simp [hin]
        by_cases hok : ok = true
        · rw [if_pos (hg.mpr hok), hok, if_pos rfl]
          simp
        · have : ok = false := by simpa using hok
          subst this
          rw [if_neg (fun hc => hok (hg.mp hc))]
          simp
  refine ⟨hes, ?_, ?_⟩
  · intro e he
    rw [hes] at he
    simp only [List.mem_append] at he
    rcases he with ((h1 | h2) | h3) | h4
    · split at h1 <;> simp_all [pickE]
    · split at h2 <;> simp_all [rightE]
    · split at h3 <;> simp_all [leftE]
    · split at h4 <;> simp_all [dropE]
  · intro hlen e he
    have harm0 : node.arm = 0 := by omega
    rw [hes] at he
    rw [hlen, harm0] at he
    simp only [List.mem_append] at he
    rcases he with ((h1 | h2) | h3) | h4
    · split at h1 <;> simp_all [pickE]
    · simp at h2
    · simp at h3
    · split at h4 <;> simp_all [dropE]

/-- The interpretation results of exactly the parses whose
`interpretCommand` succeeds, in input order. -/
def interpretationSuccesses (state : WorldState) (parses : List ParseResult) :
    List InterpretationResult :=
  parses.filterMap (fun p =>
    match interpretCommand p.parse state with
    | .ok d => some ⟨p.parse, d⟩
    | .error _ => none)

/-- The captured errors of the failing parses, in input order. -/
def interpretationErrors (state : WorldState) (parses : List ParseResult) :
    List JsErr :=
  parses.filterMap (fun p =>
    match interpretCommand p.parse state with
    | .ok _ => none
    | .error e => some e)

/-- The planner results of exactly the interpretations whose planner call
succeeds, with the source's empty-plan replacement applied. -/
def planSuccesses (f : DNFFormula → WorldState → Except JsErr (List String))
    (state : WorldState) (interps : List InterpretationResult) :
    List PlannerResult :=
  interps.filterMap (fun itp =>
    match f itp.interpretation state with
    | .ok pl => some ⟨itp, if pl = [] then ["That is already true!"] else pl⟩
    | .error _ => none)

/-- The captured errors of the failing interpretations, in input order. -/
def planErrors (f : DNFFormula → WorldState → Except JsErr (List String))
    (state : WorldState) (interps : List InterpretationResult) : List JsErr :=
  interps.filterMap (fun itp =>
    match f itp.interpretation state with
    | .ok _ => none
    | .error e => some e)

/-- Closed form of the `interpret` loop: accumulated successes decide the
outcome, with the first accumulated error surfaced otherwise. -/
theorem interpretAux_eq (state : WorldState) (ps : List ParseResult)
    (errs : List JsErr) (acc : List InterpretationResult) :
    interpretAux state ps errs acc =
      if acc ++ interpretationSuccesses state ps = [] then
        .error ((errs ++ interpretationErrors state ps).headD .undef)
      else .ok (acc ++ interpretationSuccesses state ps) := by
  induction ps generalizing errs acc with
  | nil =>
    simp only [interpretAux, interpretationSuccesses, interpretationErrors,
      List.filterMap_nil, List.append_nil]
    by_cases h : acc = [] <;> simp [h]
  | cons p rest ih =>
    cases hp : interpretCommand p.parse state with
    | ok d =>
      simp only [interpretAux, hp, interpretationSuccesses, interpretationErrors,
        List.filterMap_cons]
      rw [ih]
      simp [interpretationSuccesses, interpretationErrors, List.append_assoc]
    | error e =>
      simp only [interpretAux, hp, interpretationSuccesses, interpretationErrors,
        List.filterMap_cons]
      rw [ih]
      simp [interpretationSuccesses, interpretationErrors, List.append_assoc]

/-- Closed form of the `plan` loop, for an arbitrary per-interpretation
planner `f`. -/
theorem planAux_eq (f : DNFFormula → WorldState → Except JsErr (List String))
    (state : WorldState) (is : List InterpretationResult)
    (errs : List JsErr) (acc : List PlannerResult) :
    planAux f state is errs acc =
      if acc ++ planSuccesses f state is = [] then
        .error ((errs ++ planErrors f state is).headD .undef)
      else .ok (acc ++ planSuccesses f state is) := by
  induction is generalizing errs acc with
  | nil =>
    simp only [planAux, planSuccesses, planErrors, List.filterMap_nil, List.append_nil]
    by_cases h : acc = [] <;> simp [h]
  | cons itp rest ih =>
    cases hp : f itp.interpretation state with
    | ok pl =>
      simp only [planAux, hp, planSuccesses, planErrors, List.filterMap_cons]
      rw [ih]
      simp [planSuccesses, planErrors, List.append_assoc]
    | error e =>
      simp only [planAux, hp, planSuccesses, planErrors, List.filterMap_cons]
      rw [ih]
      simp [planSuccesses, planErrors, List.append_assoc]

/-- Claim C7: `interpret` returns the results of exactly the parses whose
`interpretCommand` call succeeds, in order, suppressing the errors of
failing parses; it throws the first captured error precisely when every
parse fails (a thrown `undefined` when there was no parse at all).  The
`plan` loop applies the same policy per interpretation, for any
per-interpretation planner. -/
theorem interpret_plan_error_policy (state : WorldState) (parses : List ParseResult)
    (f : DNFFormula → WorldState → Except JsErr (List String))
    (interps : List InterpretationResult) :
    (interpretationSuccesses state parses ≠ [] →
      interpret parses state = .ok (interpretationSuccesses state parses)) ∧
    (interpretationSuccesses state parses = [] →
      interpret parses state =
        .error ((interpretationErrors state parses).headD .undef)) ∧
    (interpretationSuccesses state parses = [] ↔
      ∀ p ∈ parses, ∃ e, interpretCommand p.parse state = .error e) ∧
    (planSuccesses f state interps ≠ [] →
      planWith f interps state = .ok (planSuccesses f state interps)) ∧
    (planSuccesses f state interps = [] →
      planWith f interps state = .error ((planErrors f state interps).headD .undef)) ∧
    (planSuccesses f state interps = [] ↔
      ∀ itp ∈ interps, ∃ e, f itp.interpretation state = .error e) := by
  refine ⟨?_, ?_, ?_, ?_, ?_, ?_⟩
  · intro hne
    unfold interpret
    rw [interpretAux_eq]
    simp [hne]
  · intro he
    unfold interpret
    rw [interpretAux_eq]
    simp [he]
  · unfold interpretationSuccesses
    rw [List.filterMap_eq_nil_iff]
    constructor
    · intro h p hp
      have hnone := h p hp
      cases hq : interpretCommand p.parse state with
      | error e => exact ⟨e, rfl⟩
      | ok d => rw [hq] at hnone; exact absurd hnone (by simp)
    · intro h p hp
      rcases h p hp with ⟨e, he⟩
      simp [he]
  · intro hne
    unfold planWith
    rw [planAux_eq]
    simp [hne]
  · intro he
    unfold planWith
    rw [planAux_eq]
    simp [he]
  · unfold planSuccesses
    rw [List.filterMap_eq_nil_iff]
    constructor
    · intro h itp hi
      have hnone := h itp hi
      cases hq : f itp.interpretation state with
      | error e => exact ⟨e, rfl⟩
      | ok pl => rw [hq] at hnone; exact absurd hnone (by simp)
    · intro h itp hi
      rcases h itp hi with ⟨e, he⟩
      simp [he]

/-- Claim C7 witness: the policy evaluated concretely.  With the single
parse "put it on the floor" in the `c6state` world, `interpret` succeeds
with exactly that parse's result; with no interpretation at all, the
abstract plan loop throws (`undefined`, from `throw errors[0]`). -/
theorem interpret_plan_error_policy_witness :
    interpret [⟨c6cmd⟩] c6state =
      .ok [⟨c6cmd, [[⟨true, "ontop", [none, some "floor"]⟩]]⟩] ∧
    planWith (fun _ _ => .ok []) [] c6state = .error .undef := by
  have h := interpret_plan_error_policy c6state [⟨c6cmd⟩] (fun _ _ => .ok []) []
  constructor
  · have h1 := h.1 (by decide)
    simpa using h1
  · have h2 := h.2.2.2.2.1 (by decide)
    simpa using h2

/-- The concrete node used to witness the C5 characterization: two
columns, `a` in column 0, nothing held, arm at 0. -/
def c5node : NodeState := ⟨0, none, [["a"], []], none⟩

/-- Claim C5 witness: the characterization applied to `c5node`, whose
successful run returns the pick and right edges; the pick edge has
cost 1. -/
theorem outgoingEdges_characterization_witness :
    (pickE c5node ["a"]).cost = 1 :=
  (outgoingEdges_characterization (fun _ => none) c5node
      [pickE c5node ["a"], rightE c5node] ["a"] rfl rfl).2.1
    (pickE c5node ["a"]) (by simp)

end Shrdlite
